import Mathlib

/-!
Verification development for the liskov-semver version-decision engine.

The definitions below are a shallow embedding of the JavaScript sources
(`src/main.mjs` and its sibling revisions).  Pure functions are translated
directly; the effectful `main` driver is modelled as a pure function over an
environment record that carries the outcomes of the external collaborators
(git queries, the packaging pipeline, the tsc oracle), together with an
explicit list of pipeline-level effects so that short-circuiting behaviour is
observable.

Semantic versions are modelled per the specification's glossary as
`major.minor.patch` triples of natural numbers; the comparison, increment and
validation helpers model the behaviour of the external `semver` npm library
restricted to such plain release versions.  JavaScript strings are modelled by
Lean strings compared by code point (JS compares UTF-16 code units; the two
orders agree on the Basic Multilingual Plane).  JavaScript's stable
`Array.prototype.sort` with comparator `c` is modelled by a stable insertion
sort with the predicate `c a b ≤ 0`.
-/

namespace LiskovSemver

/-- Stable insertion of `x` into `l`: `x` is placed after every leading
element `y` with `le y x`, so equal elements keep their original order. -/
def insertSorted (le : α → α → Bool) (x : α) : List α → List α
  | [] => [x]
  | y :: ys => if le y x then y :: insertSorted le x ys else x :: y :: ys

/-- Stable sort by the boolean predicate `le`; models JavaScript's stable
`Array.prototype.sort` with comparator `c` via `le a b := (c a b ≤ 0)`. -/
def sortBy (le : α → α → Bool) (l : List α) : List α :=
  l.foldl (fun acc x => insertSorted le x acc) []

/-- Split a character list at every occurrence of `sep`; models JavaScript's
`String.prototype.split` with a single-character separator. -/
def splitOnChar (sep : Char) : List Char → List (List Char)
  | [] => [[]]
  | c :: cs =>
    let rest := splitOnChar sep cs
    if c = sep then [] :: rest
    else
      match rest with
      | h :: t => (c :: h) :: t
      | [] => [[c]]

/-- Whitespace characters recognised by the model of `String.prototype.trim`. -/
def wsChar (c : Char) : Bool :=
  c = ' ' || c = '\n' || c = '\t' || c = '\r'

/-- Model of JavaScript's `String.prototype.trim`. -/
def jsTrim (s : String) : String :=
  String.mk (((s.toList.dropWhile wsChar).reverse.dropWhile wsChar).reverse)

/-- Model of JavaScript's `stdout.split "\n"`. -/
def splitLines (s : String) : List String :=
  (splitOnChar '\n' s.toList).map String.mk

/-- Code-point lexicographic order on character lists; models the UTF-16
code-unit comparison used by JavaScript's default array sort. -/
def listCharLe : List Char → List Char → Bool
  | [], _ => true
  | _ :: _, [] => false
  | a :: as, b :: bs =>
    if a.toNat < b.toNat then true
    else if b.toNat < a.toNat then false
    else listCharLe as bs

/-- Lexicographic comparison of strings, via `listCharLe`. -/
def strLe (a b : String) : Bool :=
  listCharLe a.toList b.toList

/-- Semantic version per the specification's glossary: a `major.minor.patch`
triple with a total lexicographic order and increment operations. -/
structure SemVer where
  major : Nat
  minor : Nat
  patch : Nat
deriving DecidableEq

/-- Strict lexicographic order on semantic versions; models the comparison
performed by the `semver` library on plain release versions. -/
def semverLtb (a b : SemVer) : Bool :=
  a.major < b.major ||
    (a.major = b.major &&
      (a.minor < b.minor || (a.minor = b.minor && a.patch < b.patch)))

/-- Three-way comparison on semantic versions, modelling `semver.compare`. -/
def compareSemVer (a b : SemVer) : Ordering :=
  if semverLtb a b then .lt else if semverLtb b a then .gt else .eq

/-- Model of `semver.rcompare`: `rcompare a b = compare b a`. -/
def rcompare (a b : SemVer) : Ordering :=
  compareSemVer b a

/-- Model of the source's `latest`: put both versions into an array, sort it
descending with `semver.rcompare` as the comparator, and return the first
element (src/main.mjs lines 193-197). -/
def latest (leftSemVer rightSemVer : SemVer) : SemVer :=
  match sortBy (fun a b => rcompare a b != Ordering.gt) [leftSemVer, rightSemVer] with
  | x :: _ => x
  | [] => leftSemVer

/-- The three increment kinds accepted by `semver.inc` that the source uses. -/
inductive IncKind where
  | patch
  | minor
  | major
deriving DecidableEq

/-- Model of `semver.inc` on plain release versions. -/
def inc (v : SemVer) : IncKind → SemVer
  | .patch => ⟨v.major, v.minor, v.patch + 1⟩
  | .minor => ⟨v.major, v.minor + 1, 0⟩
  | .major => ⟨v.major + 1, 0, 0⟩

/-- Parse a decimal numeral with no leading zeros, as in the semver grammar. -/
def parseNumeral (cs : List Char) : Option Nat :=
  if cs.isEmpty then none
  else if cs.all Char.isDigit then
    if 1 < cs.length && cs.head? == some '0' then none
    else some (cs.foldl (fun acc c => acc * 10 + (c.toNat - 48)) 0)
  else none

/-- Model of `semver.valid` restricted to plain release versions: trim, allow
an optional leading `v`, and require exactly three dot-separated numerals.
Versions with prerelease or build parts are outside the model (the
specification's glossary defines a semantic version as a bare
`major.minor.patch` triple). -/
def semverValid (s : String) : Option SemVer :=
  let cs :=
    match (jsTrim s).toList with
    | 'v' :: rest => rest
    | other => other
  match splitOnChar '.' cs with
  | [x, y, z] =>
    match parseNumeral x, parseNumeral y, parseNumeral z with
    | some a, some b, some c => some ⟨a, b, c⟩
    | _, _, _ => none
  | _ => none

/-- Render a semantic version back to its canonical string. -/
def formatSemVer (v : SemVer) : String :=
  toString v.major ++ "." ++ toString v.minor ++ "." ++ toString v.patch

/-- Parse with a default; used to model the re-parsing the `semver.rcompare`
comparator performs on each already-validated tag string. -/
def parseD (s : String) : SemVer :=
  (semverValid s).getD ⟨0, 0, 0⟩

/-! ### The version decision (src/main.mjs lines 411-428) -/

/-- The bump computed by `main` (src/main.mjs lines 411-426): patch when both
directions type-check, minor when only `forwards` does, minor when neither
`forwards` holds and the previous major is `0`, major otherwise. -/
def mainNewSemVer (previousSemVer : SemVer) (forwards backwards : Bool) : SemVer :=
  if forwards then
    if backwards then inc previousSemVer .patch
    else inc previousSemVer .minor
  else if previousSemVer.major = 0 then inc previousSemVer .minor
  else inc previousSemVer .major

/-- The value `main` returns once the oracle results are in
(src/main.mjs line 428): `latest(newSemVer, semver.parse(currentSemVer))`. -/
def mainDecision (previousSemVer currentSemVer : SemVer)
    (forwards backwards : Bool) : SemVer :=
  latest (mainNewSemVer previousSemVer forwards backwards) currentSemVer

/-- Modelled from the spec (section 4.5 table): the bump the decision table
prescribes for `(forwardsOk, backwardsOk)` and the previous major. -/
def specBump (p : SemVer) (forwardsOk backwardsOk : Bool) : SemVer :=
  if forwardsOk && backwardsOk then inc p .patch
  else if forwardsOk then inc p .minor
  else if p.major = 0 then inc p .minor
  else inc p .major

/-- Modelled from the spec: "the greater, by semantic-version order" of two
versions. -/
def specGreater (a b : SemVer) : SemVer :=
  if semverLtb a b then b else a

/-- Modelled from the spec (section 4.5): the final result is the greater of
the computed bump and the current declared version. -/
def specDecision (p c : SemVer) (forwardsOk backwardsOk : Bool) : SemVer :=
  specGreater (specBump p forwardsOk backwardsOk) c

/-! ### Tag resolution (src/main.mjs lines 99-109) -/

/-- Does the tag name parse as a valid semantic version?  Models the filter
`(tag) => null !== semver.valid(tag)`. -/
def validTagB (t : String) : Bool :=
  (semverValid t).isSome

/-- Sort predicate modelling `tags.sort(semver.rcompare)`: tag `a` may come
before tag `b` when the comparator value `rcompare a b` is not positive.  The
comparator re-parses the tag strings, as `semver.rcompare` does. -/
def tagSortLe (a b : String) : Bool :=
  rcompare (parseD a) (parseD b) != Ordering.gt

/-- The pure core of `getHighestVersionTag`: keep the tags that parse as valid
semantic versions, sort them descending by `semver.rcompare`, and return the
first, if any (src/main.mjs lines 103-108). -/
def highestVersionTagOf (tags : List String) : Option String :=
  (sortBy tagSortLe (tags.filter validTagB)).head?

/-- Model of `getHighestVersionTag` over the spawn result of `git tag --list`:
on a zero exit code the tag list is the stdout split on newlines, otherwise it
is empty (src/main.mjs lines 99-109). -/
def getHighestVersionTag (code : Int) (stdout : String) : Option String :=
  highestVersionTagOf (if code == 0 then splitLines stdout else [])

/-! ### Git query helpers (src/main.mjs lines 78-116, part_000 lines 140-149) -/

/-- Model of `getRoot` over the spawn result of `git rev-parse --show-toplevel`. -/
def getRoot (code : Int) (stdout : String) : Option String :=
  if code == 0 then some (jsTrim stdout) else none

/-- Model of `isDirty` over the spawn result of `git status --porcelain`
(src/main.mjs lines 83-88): the tree counts as dirty unless the command
succeeded with empty trimmed output. -/
def isDirty (code : Int) (stdout : String) : Bool :=
  !(code == 0 && jsTrim stdout == "")

/-- Model of `isReachable` over the spawn result of `git rev-list --boundary`
(src/main.mjs lines 90-97). -/
def isReachable (code : Int) (stdout : String) : Bool :=
  code == 0 && jsTrim stdout != ""

/-- Model of `getCurrentBranch` over the spawn result of
`git branch --show-current` (src/main.mjs lines 111-116). -/
def getCurrentBranch (code : Int) (stdout : String) : Option String :=
  if code == 0 then some (jsTrim stdout) else none

/-- Model of `getRefCommit` over the spawn result of `git rev-list -1`
(src/unnamed/part_000 lines 140-149). -/
def getRefCommit (code : Int) (stdout : String) : Option String :=
  if code == 0 then some (jsTrim stdout) else none

/-! ### Manifest model and entry-point extraction (src/main.mjs lines 230-249) -/

/-- JSON values, as produced by `JSON.parse` of a `package.json`. -/
inductive JsVal where
  | str (s : String)
  | num (n : Int)
  | jsBool (b : Bool)
  | null
  | arr (elems : List JsVal)
  | obj (fields : List (String × JsVal))

/-- First binding of key `k` among an object's fields.  `JSON.parse` keeps a
single binding per key (later duplicates overwrite earlier ones), so object
field lists are key-unique and the first match is the only one. -/
def getField (fields : List (String × JsVal)) (k : String) : Option JsVal :=
  (fields.find? (fun kv => kv.1 == k)).map (fun kv => kv.2)

/-- Model of JavaScript's `k in o` for an object: key presence, regardless of
the bound value (a field bound to `null` still counts). -/
def hasKey (fields : List (String × JsVal)) (k : String) : Bool :=
  (getField fields k).isSome

/-- Model of JavaScript's `typeof v === "object"`: true for objects, arrays,
and `null`. -/
def typeofObject : JsVal → Bool
  | .obj _ | .arr _ | .null => true
  | _ => false

/-- Property access `m.k` for the manifest keys the source reads: defined for
objects; arrays and other values have no such own property, giving
`undefined` (`none`). -/
def manifestField (m : JsVal) (k : String) : Option JsVal :=
  match m with
  | .obj fields => getField fields k
  | _ => none

/-- Model of `Object.entries`: the own enumerable string-keyed properties.
Objects yield their fields, arrays and strings yield index-keyed entries, and
other primitives yield nothing. -/
def jsEntries : JsVal → List (String × JsVal)
  | .obj fields => fields
  | .arr elems => elems.enum.map (fun p => (toString p.1, p.2))
  | .str s => s.toList.enum.map (fun p => (toString p.1, JsVal.str (String.mk [p.2])))
  | _ => []

/-- Model of `packageJsonContents.exports ?? {}` (src/main.mjs line 240): an
absent or `null` exports field behaves as an empty object. -/
def exportsOf (m : JsVal) : JsVal :=
  match manifestField m "exports" with
  | none => .obj []
  | some .null => .obj []
  | some v => v

/-- Model of `x ?? null` on an optional field, with JavaScript `null`
represented as `none` on the output side. -/
def coalesceNull : Option JsVal → Option JsVal
  | none => none
  | some .null => none
  | some v => some v

/-- Failures of the extraction slice: the explicit
`error: malformed package.json` throw, and the implicit `TypeError` JavaScript
raises when the `in` operator is applied to `null`. -/
inductive ExtractErr where
  | malformedManifest
  | typeError
deriving DecidableEq

/-- Model of the filter-and-map over `Object.entries(exports)` (src/main.mjs
lines 240-242): keep the keys whose value `v` satisfies
`typeof v === "object" && "types" in v`.  A `null` value passes the `typeof`
test and then makes `"types" in v` throw a `TypeError`; an array value passes
the `typeof` test but has no `"types"` property. -/
def entryPointsFromExports : List (String × JsVal) → Except ExtractErr (List String)
  | [] => .ok []
  | (k, v) :: rest =>
    match v with
    | .null => .error .typeError
    | .obj fields =>
      (entryPointsFromExports rest).map
        (fun r => if hasKey fields "types" then k :: r else r)
    | _ => entryPointsFromExports rest

/-- Model of the pure tail of `createTgzAndGetEntryPointsAndVersion`
(src/main.mjs lines 230-249): validate that the parsed manifest has object
type, collect the root entry point when the manifest declares `types`, append
the export-map keys whose value is an object with a `types` key, fall back to
the root entry point when the list is empty, sort, and pair the result with
the manifest's raw `version` field coalesced with `null`.  A `null` manifest
passes the `typeof` check and then crashes on `"types" in null`. -/
def extractEntryPointsAndVersion (manifest : JsVal) :
    Except ExtractErr (List String × Option JsVal) :=
  match manifest with
  | .str _ | .num _ | .jsBool _ => .error .malformedManifest
  | .null => .error .typeError
  | m =>
    let rootEntry : List String :=
      if (manifestField m "types").isSome then [""] else []
    match entryPointsFromExports (jsEntries (exportsOf m)) with
    | .error e => .error e
    | .ok fromExports =>
      let entryPoints := rootEntry ++ fromExports
      let entryPoints := if entryPoints.length = 0 then [""] else entryPoints
      .ok (sortBy strLe entryPoints, coalesceNull (manifestField m "version"))

/-- Remove later duplicates, keeping first occurrences; set-union semantics
for the spec-side entry-point description. -/
def dedupFirst : List String → List String
  | [] => []
  | x :: xs => x :: (dedupFirst xs).filter (fun y => y != x)

/-- Whether an export-map value counts, per the spec's words, as "an object
declaring a `types` field". -/
def exportDeclaresTypes : JsVal → Bool
  | .obj fields => hasKey fields "types"
  | _ => false

/-- Modelled from the spec (section 4.2): the root entry point when the
manifest declares a root `types` field, UNIONED (set semantics) with the
export-map keys whose value is an object declaring `types`, sorted
lexicographically, with a fallback to the single root entry point when the
set is empty. -/
def specEntryPointsC3 (manifest : JsVal) : List String :=
  let root : List String :=
    if (manifestField manifest "types").isSome then [""] else []
  let fromExports :=
    ((jsEntries (exportsOf manifest)).filter
      (fun kv => exportDeclaresTypes kv.2)).map Prod.fst
  let u := sortBy strLe (dedupFirst (root ++ fromExports))
  if u.length = 0 then [""] else u

/-- The entry-point list the code actually produces for a well-typed manifest:
like `specEntryPointsC3` but a plain concatenation (no union/deduplication),
with the fallback applied before sorting as in the source. -/
def extractedEntryPointsSpec (manifest : JsVal) : List String :=
  let root : List String :=
    if (manifestField manifest "types").isSome then [""] else []
  let fromExports :=
    ((jsEntries (exportsOf manifest)).filter
      (fun kv => exportDeclaresTypes kv.2)).map Prod.fst
  let l := root ++ fromExports
  sortBy strLe (if l.length = 0 then [""] else l)

/-- The duplicate scenario: the manifest declares both a root `types` field
and an export-map entry under the empty key that declares `types`, so the
root entry point is collected twice. -/
def rootExportDup (manifest : JsVal) : Bool :=
  (manifestField manifest "types").isSome &&
    (jsEntries (exportsOf manifest)).any
      (fun kv => kv.1 == "" && exportDeclaresTypes kv.2)

/-! ### Witness program synthesis (src/main.mjs lines 276-334) -/

/-- Import statement for one previous-version entry point (src/main.mjs
lines 279-285). -/
def previousImportLine (entryPoint : String) : String :=
  if entryPoint == "" then
    "import * as previousVersion_ from \"previousVersion\";"
  else
    "import * as previousVersion_" ++ entryPoint ++
      " from \"previousVersion/" ++ entryPoint ++ "\";"

/-- Import statement for one current-version entry point (src/main.mjs
lines 287-293). -/
def currentImportLine (entryPoint : String) : String :=
  if entryPoint == "" then
    "import * as currentVersion_ from \"currentVersion\";"
  else
    "import * as currentVersion_" ++ entryPoint ++
      " from \"currentVersion/" ++ entryPoint ++ "\";"

/-- Aggregate record for the previous version, keyed by entry-point names
(src/main.mjs lines 295-297). -/
def previousAggregate (entryPoints : List String) : String :=
  "const previousVersion = \x7b " ++
    String.intercalate ", "
      (entryPoints.map (fun ep => "_" ++ ep ++ ": previousVersion_" ++ ep)) ++
    " \x7d;"

/-- Aggregate record for the current version (src/main.mjs lines 298-300). -/
def currentAggregate (entryPoints : List String) : String :=
  "const currentVersion = \x7b " ++
    String.intercalate ", "
      (entryPoints.map (fun ep => "_" ++ ep ++ ": currentVersion_" ++ ep)) ++
    " \x7d;"

/-- The `commonSource` preamble shared by both witness programs (src/main.mjs
lines 276-302): a pure function of the two entry-point lists. -/
def commonSource (previousVersionEndpoints currentVersionEndpoints : List String) :
    String :=
  String.intercalate "\n"
    [ "\"use strict\";"
    , ""
    , String.intercalate "\n" (previousVersionEndpoints.map previousImportLine)
    , ""
    , String.intercalate "\n" (currentVersionEndpoints.map currentImportLine)
    , ""
    , previousAggregate previousVersionEndpoints
    , currentAggregate currentVersionEndpoints
    , "" ]

/-- Text of `currentFitsPrevious.ts` (src/main.mjs lines 318-325): the
forward-fits witness program. -/
def currentFitsPreviousSource (previousVersionEndpoints currentVersionEndpoints :
    List String) : String :=
  String.intercalate "\n"
    [ commonSource previousVersionEndpoints currentVersionEndpoints
    , "((_: typeof previousVersion): void => void \x7b\x7d)(currentVersion);"
    , "" ]

/-- Text of `previousFitsCurrent.ts` (src/main.mjs lines 326-333): the
backward-fits witness program. -/
def previousFitsCurrentSource (previousVersionEndpoints currentVersionEndpoints :
    List String) : String :=
  String.intercalate "\n"
    [ commonSource previousVersionEndpoints currentVersionEndpoints
    , "((_: typeof currentVersion): void => void \x7b\x7d)(previousVersion);"
    , "" ]

/-! ### The main driver as a pure function over an environment -/

/-- The outcome of `liskovSemVerForwardsBackwards` when the pipeline
succeeds: the two manifest versions (absent fields modelled as `none`) and
the two tsc oracle verdicts. -/
structure PipeResult where
  previousSemVer : Option String
  currentSemVer : Option String
  forwards : Bool
  backwards : Bool

/-- Pipeline-level effects, recorded so that short-circuiting is observable:
`packaging` covers the clone/install/build/pack work, `oracle` the two tsc
invocations. -/
inductive Effect where
  | packaging
  | oracle
deriving DecidableEq

/-- Errors `main` can raise, by kind: each corresponds to one `throw` in the
source (or, for `invalidSemVer`, to the `TypeError` the semver library throws
when fed `null` or an invalid version string). -/
inductive MainError where
  | noGitRoot
  | dirtyTree
  | detachedHead
  | cannotDetermineCommit
  | unreachable
  | pipelineFailure (msg : String)
  | invalidSemVer
deriving DecidableEq

/-- Environment of one `main` run: the outcomes of all the external-process
queries `main` performs, plus the packaging/oracle outcome. -/
structure Env where
  rootCode : Int
  rootOut : String
  statusCode : Int
  statusOut : String
  tagsCode : Int
  tagsOut : String
  branchCode : Int
  branchOut : String
  reachCode : Int
  reachOut : String
  pipeline : Except String PipeResult

/-- Decision tail of `main` (src/main.mjs lines 411-428) over the raw
pipeline result.  A `null` or invalid previous version makes
`semver.major`/`semver.inc` produce an error or `null`, and a `null` or
invalid current version makes `semver.parse` return `null`; either way the
`latest` comparator then throws, so both cases surface as `invalidSemVer`.
When both versions are valid the result is
`latest(newSemVer, semver.parse(currentSemVer))`. -/
def decisionTail (p : PipeResult) : Except MainError String :=
  match p.previousSemVer.bind semverValid, p.currentSemVer.bind semverValid with
  | some pv, some cv =>
    .ok (formatSemVer (latest (mainNewSemVer pv p.forwards p.backwards) cv))
  | _, _ => .error .invalidSemVer

/-- Model of `main` (src/main.mjs lines 379-429): resolve the git root, check
dirtiness, resolve the highest version tag (returning `0.1.0` when there is
none), resolve the current branch, optionally check reachability, then run
the pipeline and the decision.  The effect list records whether the
packaging/oracle stages were reached. -/
def mainRun (errorOnDirty errorOnUnreachable : Bool) (env : Env) :
    List Effect × Except MainError String :=
  match getRoot env.rootCode env.rootOut with
  | none => ([], .error .noGitRoot)
  | some _root =>
    if errorOnDirty && isDirty env.statusCode env.statusOut then
      ([], .error .dirtyTree)
    else
      match getHighestVersionTag env.tagsCode env.tagsOut with
      | none => ([], .ok "0.1.0")
      | some _previousVersion =>
        match getCurrentBranch env.branchCode env.branchOut with
        | none => ([], .error .detachedHead)
        | some _currentVersion =>
          if errorOnUnreachable && !isReachable env.reachCode env.reachOut then
            ([], .error .unreachable)
          else
            match env.pipeline with
            | .error msg => ([.packaging], .error (.pipelineFailure msg))
            | .ok p => ([.packaging, .oracle], decisionTail p)

/-- Environment of one `main` run of the src/unnamed/part_000 revision, which
additionally resolves both references to commit hashes. -/
structure HashedEnv extends Env where
  prevHashCode : Int
  prevHashOut : String
  currHashCode : Int
  currHashOut : String

/-- Model of `main` from src/unnamed/part_000 lines 446-512: like `mainRun`
but resolving the previous tag and current branch to commit hashes, and
short-circuiting with `semver.valid(previousVersion)` when the two hashes
coincide.  (`semver.valid` of an invalid tag would return `null`, which the
driver would print as the string `null`; the highest-version tag always
parses, so that branch is unreachable in context.) -/
def mainRunHashed (errorOnDirty errorOnUnreachable : Bool) (env : HashedEnv) :
    List Effect × Except MainError String :=
  match getRoot env.rootCode env.rootOut with
  | none => ([], .error .noGitRoot)
  | some _root =>
    if errorOnDirty && isDirty env.statusCode env.statusOut then
      ([], .error .dirtyTree)
    else
      match getHighestVersionTag env.tagsCode env.tagsOut with
      | none => ([], .ok "0.1.0")
      | some previousVersion =>
        match getRefCommit env.prevHashCode env.prevHashOut with
        | none => ([], .error .cannotDetermineCommit)
        | some previousVersionHash =>
          match getCurrentBranch env.branchCode env.branchOut with
          | none => ([], .error .detachedHead)
          | some _currentVersion =>
            match getRefCommit env.currHashCode env.currHashOut with
            | none => ([], .error .cannotDetermineCommit)
            | some currentVersionHash =>
              if previousVersionHash == currentVersionHash then
                match semverValid previousVersion with
                | some v => ([], .ok (formatSemVer v))
                | none => ([], .ok "null")
              else if errorOnUnreachable && !isReachable env.reachCode env.reachOut then
                ([], .error .unreachable)
              else
                match env.pipeline with
                | .error msg => ([.packaging], .error (.pipelineFailure msg))
                | .ok p => ([.packaging, .oracle], decisionTail p)

/-! ### Concrete fixtures -/

/-- A manifest that declares both a root `types` field and an export-map
entry under the empty key that itself declares `types`. -/
def manifestDupRoot : JsVal :=
  .obj [("types", .str "index.d.ts"),
        ("exports", .obj [("", .obj [("types", .str "exports.d.ts")])])]

/-- A manifest whose `version` field is not a semantic version. -/
def manifestBanana : JsVal :=
  .obj [("version", .str "banana")]

/-- A manifest with a `null` export-map value. -/
def manifestNullExport : JsVal :=
  .obj [("exports", .obj [("./a", .null)])]

/-- Decidable test for the JSON `null` value. -/
def isNull : JsVal → Bool
  | .null => true
  | _ => false

/-- A typical manifest: a root `types` field and two typed export entries. -/
def manifestTypical : JsVal :=
  .obj [("version", .str "1.2.3"),
        ("types", .str "index.d.ts"),
        ("exports", .obj
          [("./b", .obj [("types", .str "b.d.ts")]),
           ("./a", .obj [("types", .str "a.d.ts")]),
           ("./skip", .str "skip.js")])]

/-- An environment whose repository has no valid-semver tag at all. -/
def envNoTags : Env :=
  ⟨0, "/repo\n", 0, "", 0, "not-a-version\nalso-junk", 0, "main\n", 0, "abc\n",
    .ok ⟨some "1.0.0", some "1.0.0", true, true⟩⟩

/-- An environment whose `git status` query itself fails (non-zero exit code,
empty output). -/
def envStatusFails : Env :=
  ⟨0, "/repo\n", 1, "", 0, "1.0.0\n", 0, "main\n", 0, "abc\n",
    .ok ⟨some "1.0.0", some "1.0.0", true, true⟩⟩

/-- A hashed environment in which the highest version tag `1.2.3` and the
current branch resolve to the same commit, while the previous artifact's
manifest declares version `9.9.9`. -/
def envSameCommit : HashedEnv :=
  ⟨⟨0, "/repo\n", 0, "", 0, "1.2.3\n", 0, "main\n", 0, "abc\n",
      .ok ⟨some "9.9.9", some "9.9.9", true, true⟩⟩,
    0, "commitaaa\n", 0, "commitaaa"⟩

/-! ### Order lemmas for the semantic-version comparison -/

theorem semverLtb_iff (a b : SemVer) :
    semverLtb a b = true ↔
      (a.major < b.major ∨ (a.major = b.major ∧
        (a.minor < b.minor ∨ (a.minor = b.minor ∧ a.patch < b.patch)))) := by
  simp [semverLtb]

theorem semverLtb_eq_false_iff (a b : SemVer) :
    semverLtb a b = false ↔
      ¬(a.major < b.major ∨ (a.major = b.major ∧
        (a.minor < b.minor ∨ (a.minor = b.minor ∧ a.patch < b.patch)))) := by
  rw [← semverLtb_iff]
  cases semverLtb a b <;> simp

theorem semverLtb_irrefl (a : SemVer) : semverLtb a a = false := by
  rw [semverLtb_eq_false_iff]
  omega

theorem semverLtb_asymm {a b : SemVer} (h : semverLtb a b = true) :
    semverLtb b a = false := by
  rw [semverLtb_iff] at h
  rw [semverLtb_eq_false_iff]
  omega

theorem semverLtb_trans {a b c : SemVer} (h1 : semverLtb a b = true)
    (h2 : semverLtb b c = true) : semverLtb a c = true := by
  rw [semverLtb_iff] at h1 h2 ⊢
  omega

theorem semverLtb_false_trans {a b c : SemVer} (h1 : semverLtb a b = false)
    (h2 : semverLtb b c = false) : semverLtb a c = false := by
  rw [semverLtb_eq_false_iff] at h1 h2 ⊢
  omega

theorem compareSemVer_eq_gt_iff (a b : SemVer) :
    compareSemVer a b = Ordering.gt ↔ semverLtb b a = true := by
  unfold compareSemVer
  by_cases h1 : semverLtb a b = true
  · simp [h1, semverLtb_asymm h1]
  · by_cases h2 : semverLtb b a = true <;> simp [h1, h2]

theorem latest_eq (l r : SemVer) :
    latest l r = if semverLtb l r then r else l := by
  by_cases h : semverLtb l r = true
  · have hg : (rcompare l r != Ordering.gt) = false := by
      have hc : rcompare l r = Ordering.gt := (compareSemVer_eq_gt_iff r l).mpr h
      rw [hc]
      rfl
    simp [latest, sortBy, insertSorted, List.foldl, hg, h]
  · have hg : (rcompare l r != Ordering.gt) = true := by
      cases hcv : rcompare l r
      · rfl
      · rfl
      · exact absurd ((compareSemVer_eq_gt_iff r l).mp hcv) h
    simp [latest, sortBy, insertSorted, List.foldl, hg, h]

theorem semverLtb_inc (v : SemVer) (k : IncKind) :
    semverLtb v (inc v k) = true := by
  cases k <;> (rw [semverLtb_iff]; unfold inc) <;> dsimp only <;> omega

theorem mainNewSemVer_eq_specBump (p : SemVer) (f b : Bool) :
    mainNewSemVer p f b = specBump p f b := by
  cases f <;> cases b <;> rfl

theorem semverLtb_mainNewSemVer (p : SemVer) (f b : Bool) :
    semverLtb p (mainNewSemVer p f b) = true := by
  unfold mainNewSemVer
  split_ifs <;> exact semverLtb_inc _ _

/-! ### Generic facts about the stable sort -/

theorem insertSorted_perm (le : α → α → Bool) (x : α) (l : List α) :
    List.Perm (insertSorted le x l) (x :: l) := by
  induction l with
  | nil => exact List.Perm.refl _
  | cons y ys ih =>
    unfold insertSorted
    by_cases h : le y x = true
    · rw [if_pos h]
      exact (ih.cons y).trans (List.Perm.swap x y ys)
    · rw [if_neg h]

theorem foldl_insertSorted_perm (le : α → α → Bool) (l : List α) :
    ∀ acc : List α, List.Perm (l.foldl (fun a x => insertSorted le x a) acc) (acc ++ l) := by
  induction l with
  | nil => intro acc; simp
  | cons x xs ih =>
    intro acc
    have h1 := ih (insertSorted le x acc)
    have h2 : List.Perm (insertSorted le x acc ++ xs) ((x :: acc) ++ xs) :=
      (insertSorted_perm le x acc).append_right xs
    have h3 : List.Perm ((x :: acc) ++ xs) (acc ++ x :: xs) := List.perm_middle.symm
    simpa using (h1.trans h2).trans h3

theorem sortBy_perm (le : α → α → Bool) (l : List α) : List.Perm (sortBy le l) l := by
  simpa [sortBy] using foldl_insertSorted_perm le l []

theorem insertSorted_pairwise (le : α → α → Bool)
    (htrans : ∀ a b c, le a b = true → le b c = true → le a c = true)
    (htotal : ∀ a b, le a b = true ∨ le b a = true) (x : α) (l : List α)
    (hl : l.Pairwise (fun a b => le a b = true)) :
    (insertSorted le x l).Pairwise (fun a b => le a b = true) := by
  induction l with
  | nil => simp [insertSorted]
  | cons y ys ih =>
    rcases List.pairwise_cons.mp hl with ⟨hy, hys⟩
    unfold insertSorted
    by_cases h : le y x = true
    · rw [if_pos h]
      refine List.pairwise_cons.mpr ⟨?_, ih hys⟩
      intro z hz
      rcases List.mem_cons.mp ((insertSorted_perm le x ys).mem_iff.mp hz) with hzx | hzys
      · exact hzx ▸ h
      · exact hy z hzys
    · rw [if_neg h]
      have hxy : le x y = true := (htotal x y).resolve_right h
      refine List.pairwise_cons.mpr ⟨?_, List.pairwise_cons.mpr ⟨hy, hys⟩⟩
      intro z hz
      rcases List.mem_cons.mp hz with hzy | hzys
      · exact hzy ▸ hxy
      · exact htrans x y z hxy (hy z hzys)

theorem sortBy_pairwise (le : α → α → Bool)
    (htrans : ∀ a b c, le a b = true → le b c = true → le a c = true)
    (htotal : ∀ a b, le a b = true ∨ le b a = true) (l : List α) :
    (sortBy le l).Pairwise (fun a b => le a b = true) := by
  suffices h : ∀ acc : List α, acc.Pairwise (fun a b => le a b = true) →
      (l.foldl (fun a x => insertSorted le x a) acc).Pairwise
        (fun a b => le a b = true) by
    exact h [] (List.Pairwise.nil)
  induction l with
  | nil => intro acc hacc; simpa using hacc
  | cons x xs ih =>
    intro acc hacc
    exact ih (insertSorted le x acc)
      (insertSorted_pairwise le htrans htotal x acc hacc)

/-! ### The two concrete sort predicates are total preorders -/

theorem listCharLe_total (x y : List Char) :
    listCharLe x y = true ∨ listCharLe y x = true := by
  induction x generalizing y with
  | nil => exact Or.inl rfl
  | cons a as ih =>
    cases y with
    | nil => exact Or.inr rfl
    | cons b bs =>
      unfold listCharLe
      rcases ih bs with h | h <;> by_cases hab : a.toNat < b.toNat <;>
        by_cases hba : b.toNat < a.toNat <;>
        first
          | (left; simp [hab, hba, h]; done)
          | (right; simp [hab, hba, h]; done)

theorem listCharLe_trans {x y z : List Char} (h1 : listCharLe x y = true)
    (h2 : listCharLe y z = true) : listCharLe x z = true := by
  induction x generalizing y z with
  | nil => rfl
  | cons a as ih =>
    cases y with
    | nil => simp [listCharLe] at h1
    | cons b bs =>
      cases z with
      | nil => simp [listCharLe] at h2
      | cons c cs =>
        unfold listCharLe at h1 h2 ⊢
        split_ifs at h1 h2 ⊢ <;>
          first
            | rfl
            | (simp at h1; done)
            | (simp at h2; done)
            | (exfalso; omega)
            | exact ih h1 h2

theorem strLe_total (a b : String) : strLe a b = true ∨ strLe b a = true :=
  listCharLe_total _ _

theorem strLe_trans (a b c : String) (h1 : strLe a b = true)
    (h2 : strLe b c = true) : strLe a c = true :=
  listCharLe_trans h1 h2

theorem compareSemVer_eq_lt_iff (a b : SemVer) :
    compareSemVer a b = Ordering.lt ↔ semverLtb a b = true := by
  unfold compareSemVer
  by_cases h1 : semverLtb a b = true
  · simp [h1]
  · by_cases h2 : semverLtb b a = true <;> simp [h1, h2]

theorem compareSemVer_eq_eq_iff (a b : SemVer) :
    compareSemVer a b = Ordering.eq ↔
      (semverLtb a b = false ∧ semverLtb b a = false) := by
  unfold compareSemVer
  by_cases h1 : semverLtb a b = true
  · simp [h1]
  · by_cases h2 : semverLtb b a = true <;> simp [h1, h2]

theorem tagSortLe_eq_true_iff (a b : String) :
    tagSortLe a b = true ↔ semverLtb (parseD a) (parseD b) = false := by
  unfold tagSortLe rcompare
  cases hc : compareSemVer (parseD b) (parseD a) with
  | lt =>
    have hlt := (compareSemVer_eq_lt_iff _ _).mp hc
    have hb : (Ordering.lt != Ordering.gt) = true := rfl
    rw [hb]
    simp [semverLtb_asymm hlt]
  | eq =>
    have heq := (compareSemVer_eq_eq_iff _ _).mp hc
    have hb : (Ordering.eq != Ordering.gt) = true := rfl
    rw [hb]
    simp [heq.2]
  | gt =>
    have hgt := (compareSemVer_eq_gt_iff _ _).mp hc
    have hb : (Ordering.gt != Ordering.gt) = false := rfl
    rw [hb]
    simp [hgt]

theorem tagSortLe_total (a b : String) :
    tagSortLe a b = true ∨ tagSortLe b a = true := by
  rw [tagSortLe_eq_true_iff, tagSortLe_eq_true_iff]
  by_cases h : semverLtb (parseD a) (parseD b) = true
  · exact Or.inr (semverLtb_asymm h)
  · exact Or.inl (Bool.not_eq_true _ ▸ Bool.eq_false_iff.mpr h)

theorem tagSortLe_trans (a b c : String) (h1 : tagSortLe a b = true)
    (h2 : tagSortLe b c = true) : tagSortLe a c = true := by
  rw [tagSortLe_eq_true_iff] at h1 h2 ⊢
  exact semverLtb_false_trans h1 h2

theorem validTagB_eq_false_iff (t : String) :
    validTagB t = false ↔ semverValid t = none := by
  unfold validTagB
  cases semverValid t <;> simp

theorem parseD_eq_of_valid {u : String} {w : SemVer}
    (h : semverValid u = some w) : parseD u = w := by
  unfold parseD
  rw [h]
  rfl

/-! ### Claim theorems -/

/-- C1.  For every valid previous declared version, current declared version,
and boolean pair, the decision of `main` (src/main.mjs lines 411-428, with
`latest` from lines 193-197) computes exactly the bump the specification's
table prescribes — patch when both substitutions type-check, minor when only
the forward one does, minor instead of major while the previous major is
zero, major otherwise — and reports the greater, under semantic-version
order, of that bump and the current declared version. -/
theorem c1_decision_matches_spec_table (previous current : SemVer)
    (forwardsOk backwardsOk : Bool) :
    mainDecision previous current forwardsOk backwardsOk =
      specDecision previous current forwardsOk backwardsOk := by
  unfold mainDecision specDecision specGreater
  rw [latest_eq, mainNewSemVer_eq_specBump]

/-- C2.  For all inputs, the version the decision stage returns is strictly
greater than the previous declared version under semantic-version order
(in particular the allowance of the claim — returning the current declared
version when it already exceeds the computed bump — still yields a version
strictly greater than the previous one). -/
theorem c2_decision_exceeds_previous (previous current : SemVer)
    (forwardsOk backwardsOk : Bool) :
    semverLtb previous (mainDecision previous current forwardsOk backwardsOk) = true ∨
      (mainDecision previous current forwardsOk backwardsOk = current ∧
        semverLtb (mainNewSemVer previous forwardsOk backwardsOk) current = true) := by
  left
  unfold mainDecision
  rw [latest_eq]
  by_cases h : semverLtb (mainNewSemVer previous forwardsOk backwardsOk) current = true
  · rw [if_pos h]
    exact semverLtb_trans (semverLtb_mainNewSemVer previous forwardsOk backwardsOk) h
  · rw [if_neg (by simp [h])]
    exact semverLtb_mainNewSemVer previous forwardsOk backwardsOk

/-- C1 witness: the theorem applied at a concrete decision input. -/
theorem c1_decision_matches_spec_table_witness :
    mainDecision ⟨1, 2, 3⟩ ⟨0, 1, 0⟩ true false =
      specDecision ⟨1, 2, 3⟩ ⟨0, 1, 0⟩ true false :=
  c1_decision_matches_spec_table ⟨1, 2, 3⟩ ⟨0, 1, 0⟩ true false

/-- C2 witness: the theorem applied at a concrete decision input. -/
theorem c2_decision_exceeds_previous_witness :
    semverLtb ⟨0, 2, 5⟩ (mainDecision ⟨0, 2, 5⟩ ⟨0, 1, 0⟩ false false) = true ∨
      (mainDecision ⟨0, 2, 5⟩ ⟨0, 1, 0⟩ false false = ⟨0, 1, 0⟩ ∧
        semverLtb (mainNewSemVer ⟨0, 2, 5⟩ false false) ⟨0, 1, 0⟩ = true) :=
  c2_decision_exceeds_previous ⟨0, 2, 5⟩ ⟨0, 1, 0⟩ false false

/-- C4.  For every list of tag names, the highest-version-tag resolution
(src/main.mjs lines 99-109) returns `none` exactly when no tag parses as a
valid semantic version, and otherwise returns a tag from the list that is
valid and whose version is a maximum, under semantic-version order, of all
the valid tags' versions. -/
theorem c4_highest_version_tag (tags : List String) :
    (highestVersionTagOf tags = none ↔ ∀ t ∈ tags, semverValid t = none) ∧
    (∀ t, highestVersionTagOf tags = some t →
      t ∈ tags ∧ (semverValid t).isSome = true ∧
      ∀ u ∈ tags, ∀ w, semverValid u = some w →
        semverLtb (parseD t) w = false) := by
  have hperm := sortBy_perm tagSortLe (tags.filter validTagB)
  constructor
  · constructor
    · intro hnone t ht
      have hnil : sortBy tagSortLe (tags.filter validTagB) = [] := by
        unfold highestVersionTagOf at hnone
        cases hs : sortBy tagSortLe (tags.filter validTagB) with
        | nil => rfl
        | cons x xs => rw [hs] at hnone; exact absurd hnone (by simp)
      have hfilter : tags.filter validTagB = [] := by
        have hp := hperm
        rw [hnil] at hp
        exact (List.Perm.nil_eq hp).symm
      have hfalse : validTagB t = false := by
        have := List.filter_eq_nil_iff.mp hfilter t ht
        cases hvb : validTagB t
        · rfl
        · exact absurd hvb this
      exact (validTagB_eq_false_iff t).mp hfalse
    · intro hall
      have hfilter : tags.filter validTagB = [] :=
        List.filter_eq_nil_iff.mpr (fun t ht => by
          rw [(validTagB_eq_false_iff t).mpr (hall t ht)]
          simp)
      unfold highestVersionTagOf
      rw [hfilter]
      rfl
  · intro t ht
    obtain ⟨rest, hrest⟩ :
        ∃ rest, sortBy tagSortLe (tags.filter validTagB) = t :: rest := by
      unfold highestVersionTagOf at ht
      cases hs : sortBy tagSortLe (tags.filter validTagB) with
      | nil => rw [hs] at ht; exact absurd ht (by simp)
      | cons x xs =>
        rw [hs] at ht
        refine ⟨xs, ?_⟩
        have hx : x = t := by simpa using ht
        rw [hx]
    have hmem_sorted : t ∈ sortBy tagSortLe (tags.filter validTagB) := by
      rw [hrest]
      exact List.mem_cons_self t rest
    have hmem_filter : t ∈ tags.filter validTagB := hperm.mem_iff.mp hmem_sorted
    obtain ⟨hmem_tags, hvalid⟩ := List.mem_filter.mp hmem_filter
    refine ⟨hmem_tags, hvalid, ?_⟩
    intro u hu w hw
    have hu_filter : u ∈ tags.filter validTagB :=
      List.mem_filter.mpr ⟨hu, by unfold validTagB; rw [hw]; rfl⟩
    have hu_sorted := hperm.mem_iff.mpr hu_filter
    rw [hrest] at hu_sorted
    have hpair := sortBy_pairwise tagSortLe tagSortLe_trans tagSortLe_total
      (tags.filter validTagB)
    rw [hrest] at hpair
    rcases List.mem_cons.mp hu_sorted with rfl | hu_rest
    · rw [← parseD_eq_of_valid hw]
      exact semverLtb_irrefl _
    · have hle := (List.pairwise_cons.mp hpair).1 u hu_rest
      rw [← parseD_eq_of_valid hw]
      exact (tagSortLe_eq_true_iff t u).mp hle

/-- C4 witness: the theorem applied to a concrete tag list. -/
theorem c4_highest_version_tag_witness :
    (highestVersionTagOf ["0.9.0", "junk", "v1.2.3", "1.0.0"] = none ↔
      ∀ t ∈ ["0.9.0", "junk", "v1.2.3", "1.0.0"], semverValid t = none) ∧
    (∀ t, highestVersionTagOf ["0.9.0", "junk", "v1.2.3", "1.0.0"] = some t →
      t ∈ ["0.9.0", "junk", "v1.2.3", "1.0.0"] ∧ (semverValid t).isSome = true ∧
      ∀ u ∈ ["0.9.0", "junk", "v1.2.3", "1.0.0"], ∀ w, semverValid u = some w →
        semverLtb (parseD t) w = false) :=
  c4_highest_version_tag ["0.9.0", "junk", "v1.2.3", "1.0.0"]

/-- C7.  Witness-program synthesis is deterministic: the text of the two
programs is a pure function of the two entry-point lists (src/main.mjs lines
276-334 build it from string literals and the lists alone), so two runs on
identical lists produce byte-identical program texts. -/
theorem c7_witness_synthesis_deterministic
    (prev1 curr1 prev2 curr2 : List String)
    (hp : prev1 = prev2) (hc : curr1 = curr2) :
    currentFitsPreviousSource prev1 curr1 = currentFitsPreviousSource prev2 curr2 ∧
    previousFitsCurrentSource prev1 curr1 = previousFitsCurrentSource prev2 curr2 := by
  subst hp
  subst hc
  exact ⟨rfl, rfl⟩

/-- C7 witness: the theorem applied to concrete entry-point lists. -/
theorem c7_witness_synthesis_deterministic_witness :
    currentFitsPreviousSource ["", "sub"] [""] = currentFitsPreviousSource ["", "sub"] [""] ∧
    previousFitsCurrentSource ["", "sub"] [""] = previousFitsCurrentSource ["", "sub"] [""] :=
  c7_witness_synthesis_deterministic ["", "sub"] [""] ["", "sub"] [""] rfl rfl

/-! ### Entry-point extraction lemmas -/

theorem entryPointsFromExports_eq_ok (entries : List (String × JsVal))
    (hnn : ∀ kv ∈ entries, isNull kv.2 = false) :
    entryPointsFromExports entries =
      .ok ((entries.filter (fun kv => exportDeclaresTypes kv.2)).map Prod.fst) := by
  induction entries with
  | nil => rfl
  | cons kv rest ih =>
    obtain ⟨k, v⟩ := kv
    have hv : isNull v = false := hnn (k, v) (List.mem_cons_self _ _)
    have hrest := ih (fun kv hkv => hnn kv (List.mem_cons_of_mem _ hkv))
    cases v with
    | null => simp [isNull] at hv
    | obj fields =>
      simp only [entryPointsFromExports, hrest, Except.map, List.filter_cons]
      by_cases ht : hasKey fields "types" = true
      · simp [exportDeclaresTypes, ht]
      · simp [exportDeclaresTypes, ht]
    | str s =>
      simp only [entryPointsFromExports, hrest, List.filter_cons]
      simp [exportDeclaresTypes]
    | num n =>
      simp only [entryPointsFromExports, hrest, List.filter_cons]
      simp [exportDeclaresTypes]
    | jsBool b =>
      simp only [entryPointsFromExports, hrest, List.filter_cons]
      simp [exportDeclaresTypes]
    | arr elems =>
      simp only [entryPointsFromExports, hrest, List.filter_cons]
      simp [exportDeclaresTypes]

/-- C3.  Counterexample to the claim as stated: the extraction is a
concatenation, not a set union — a manifest declaring both a root `types`
field and an empty-key export entry with `types` yields the root entry point
twice, differing from the claim's union; moreover a `null` export-map value
makes the extraction fail (the `in` operator throws) instead of being
skipped. -/
theorem c3_counterexample :
    extractEntryPointsAndVersion manifestDupRoot = .ok (["", ""], none) ∧
    specEntryPointsC3 manifestDupRoot = [""] ∧
    (["", ""] : List String) ≠ [""] ∧
    extractEntryPointsAndVersion manifestNullExport = .error .typeError :=
  ⟨rfl, rfl, by decide, rfl⟩

/-- C3 amended.  For every manifest of JSON object type (not `null`) whose
export-map entries carry no `null` value, the extracted entry-point list is
the CONCATENATION of the root entry point (when the manifest declares a root
`types` field) and the export-map keys whose value is an object declaring
`types`, with a fallback to the single root entry point when that
concatenation is empty, sorted lexicographically.  Duplicates are not
removed. -/
theorem c3_amended (manifest : JsVal) (eps : List String) (ver : Option JsVal)
    (hto : typeofObject manifest = true)
    (hnnull : isNull manifest = false)
    (hnn : ∀ kv ∈ jsEntries (exportsOf manifest), isNull kv.2 = false)
    (hok : extractEntryPointsAndVersion manifest = .ok (eps, ver)) :
    eps = extractedEntryPointsSpec manifest := by
  cases manifest with
  | str s => simp [typeofObject] at hto
  | num n => simp [typeofObject] at hto
  | jsBool b => simp [typeofObject] at hto
  | null => simp [isNull] at hnnull
  | obj fields =>
    simp only [extractEntryPointsAndVersion] at hok
    rw [entryPointsFromExports_eq_ok _ hnn] at hok
    simp only [Except.ok.injEq, Prod.mk.injEq] at hok
    rw [← hok.1]
    rfl
  | arr elems =>
    simp only [extractEntryPointsAndVersion] at hok
    rw [entryPointsFromExports_eq_ok _ hnn] at hok
    simp only [Except.ok.injEq, Prod.mk.injEq] at hok
    rw [← hok.1]
    rfl

/-- C3 amended witness: the theorem applied to a typical manifest. -/
theorem c3_amended_witness :
    (["", "./a", "./b"] : List String) = extractedEntryPointsSpec manifestTypical :=
  c3_amended manifestTypical ["", "./a", "./b"] (some (.str "1.2.3")) rfl rfl
    (by decide) rfl

theorem sortedNodupAux (rootFlag : Bool) (entries : List (String × JsVal))
    (hkeys : (entries.map Prod.fst).Nodup)
    (hcond : (rootFlag &&
      entries.any (fun kv => kv.1 == "" && exportDeclaresTypes kv.2)) = false) :
    (sortBy strLe
      (if ((if rootFlag then [""] else []) ++
            (entries.filter (fun kv => exportDeclaresTypes kv.2)).map Prod.fst).length = 0
        then [""]
        else (if rootFlag then [""] else []) ++
          (entries.filter (fun kv => exportDeclaresTypes kv.2)).map Prod.fst)).Pairwise
      (fun a b => strLe a b = true) ∧
    (sortBy strLe
      (if ((if rootFlag then [""] else []) ++
            (entries.filter (fun kv => exportDeclaresTypes kv.2)).map Prod.fst).length = 0
        then [""]
        else (if rootFlag then [""] else []) ++
          (entries.filter (fun kv => exportDeclaresTypes kv.2)).map Prod.fst)).Nodup := by
  constructor
  · exact sortBy_pairwise strLe strLe_trans strLe_total _
  · apply ((sortBy_perm strLe _).nodup_iff).mpr
    have hkN : ((entries.filter (fun kv => exportDeclaresTypes kv.2)).map Prod.fst).Nodup :=
      hkeys.sublist (List.Sublist.map Prod.fst (List.filter_sublist entries))
    by_cases hlen : (((if rootFlag then [""] else []) ++
        (entries.filter (fun kv => exportDeclaresTypes kv.2)).map Prod.fst).length = 0)
    · rw [if_pos hlen]
      simp
    · rw [if_neg hlen]
      cases rootFlag with
      | false => simpa using hkN
      | true =>
        have hany : entries.any (fun kv => kv.1 == "" && exportDeclaresTypes kv.2) = false := by
          simpa using hcond
        refine List.nodup_cons.mpr ⟨?_, hkN⟩
        intro hmem
        obtain ⟨kv, hkv_f, hfst⟩ := List.mem_map.mp hmem
        obtain ⟨hkv_e, hp⟩ := List.mem_filter.mp hkv_f
        rw [List.any_eq_false] at hany
        apply hany kv hkv_e
        rw [hfst]
        simp [hp]

/-- C8.  Counterexample to the claim as stated: the extraction performs no
deduplication — a manifest declaring both a root `types` field and an
empty-key export entry with `types` produces the root entry point twice. -/
theorem c8_counterexample :
    extractEntryPointsAndVersion manifestDupRoot = .ok (["", ""], none) ∧
    ¬ (["", ""] : List String).Nodup :=
  ⟨rfl, by decide⟩

/-- C8 amended.  Every extracted entry-point list is sorted into a
deterministic (lexicographic) order; it is moreover deduplicated whenever the
export-map keys are unique (as `JSON.parse` guarantees) and the manifest does
not declare both a root `types` field and an empty-key export entry with
`types` — the only way a duplicate (of the root entry point) can arise. -/
theorem c8_amended (manifest : JsVal) (eps : List String) (ver : Option JsVal)
    (hkeys : ((jsEntries (exportsOf manifest)).map Prod.fst).Nodup)
    (hnn : ∀ kv ∈ jsEntries (exportsOf manifest), isNull kv.2 = false)
    (hdup : rootExportDup manifest = false)
    (hok : extractEntryPointsAndVersion manifest = .ok (eps, ver)) :
    eps.Pairwise (fun a b => strLe a b = true) ∧ eps.Nodup := by
  cases manifest with
  | str s => simp [extractEntryPointsAndVersion] at hok
  | num n => simp [extractEntryPointsAndVersion] at hok
  | jsBool b => simp [extractEntryPointsAndVersion] at hok
  | null => simp [extractEntryPointsAndVersion] at hok
  | obj fields =>
    simp only [extractEntryPointsAndVersion] at hok
    rw [entryPointsFromExports_eq_ok _ hnn] at hok
    simp only [Except.ok.injEq, Prod.mk.injEq] at hok
    rw [← hok.1]
    exact sortedNodupAux ((manifestField (.obj fields) "types").isSome)
      (jsEntries (exportsOf (.obj fields))) hkeys hdup
  | arr elems =>
    simp only [extractEntryPointsAndVersion] at hok
    rw [entryPointsFromExports_eq_ok _ hnn] at hok
    simp only [Except.ok.injEq, Prod.mk.injEq] at hok
    rw [← hok.1]
    exact sortedNodupAux ((manifestField (.arr elems) "types").isSome)
      (jsEntries (exportsOf (.arr elems))) hkeys hdup

/-- C8 amended witness: the theorem applied to a typical manifest. -/
theorem c8_amended_witness :
    (["", "./a", "./b"] : List String).Pairwise (fun a b => strLe a b = true) ∧
    (["", "./a", "./b"] : List String).Nodup :=
  c8_amended manifestTypical ["", "./a", "./b"] (some (.str "1.2.3"))
    (by decide) (by decide) rfl rfl

/-- C9.  Counterexample to the claim as stated: the extraction slice
(src/main.mjs lines 230-249) never validates the manifest's `version` field
as a semantic version and never raises on a malformed one — the invalid
version string `banana` is returned untouched and flows into the version
decision. -/
theorem c9_counterexample :
    semverValid "banana" = none ∧
    extractEntryPointsAndVersion manifestBanana = .ok ([""], some (.str "banana")) :=
  ⟨rfl, rfl⟩

/-- C9 amended.  The manifest as a whole is validated to have object type — a
string, number or boolean manifest is a hard failure (`malformed
package.json`) — but the `version` field itself is extracted as
`version ?? null` with no semantic-version validation: whatever value it
holds is passed on into the version decision. -/
theorem c9_amended :
    (∀ (fields : List (String × JsVal)) (eps : List String) (ver : Option JsVal),
      extractEntryPointsAndVersion (.obj fields) = .ok (eps, ver) →
        ver = coalesceNull (getField fields "version")) ∧
    (∀ s : String, extractEntryPointsAndVersion (.str s) = .error .malformedManifest) ∧
    (∀ n : Int, extractEntryPointsAndVersion (.num n) = .error .malformedManifest) ∧
    (∀ b : Bool, extractEntryPointsAndVersion (.jsBool b) = .error .malformedManifest) := by
  refine ⟨?_, fun s => rfl, fun n => rfl, fun b => rfl⟩
  intro fields eps ver h
  simp only [extractEntryPointsAndVersion] at h
  cases he : entryPointsFromExports (jsEntries (exportsOf (JsVal.obj fields))) with
  | error e =>
    rw [he] at h
    simp at h
  | ok fe =>
    rw [he] at h
    simp only [Except.ok.injEq, Prod.mk.injEq] at h
    exact h.2.symm

/-- C9 amended witness: the theorem applied to a concrete manifest. -/
theorem c9_amended_witness :
    some (JsVal.str "1.2.3") =
      coalesceNull (getField [("version", JsVal.str "1.2.3")] "version") :=
  c9_amended.1 [("version", JsVal.str "1.2.3")] [""] (some (.str "1.2.3")) rfl

/-- C5.  Whenever no tag of the repository parses as a valid semantic version
(and the run gets past the root and dirtiness checks), `main` short-circuits
with no packaging and no oracle invocation — the effect list is empty — and
reports exactly the literal version string `0.1.0` (src/main.mjs
lines 389-392). -/
theorem c5_no_previous_tag_yields_initial_version
    (errorOnDirty errorOnUnreachable : Bool) (env : Env)
    (hroot : (getRoot env.rootCode env.rootOut).isSome = true)
    (hclean : errorOnDirty = true → isDirty env.statusCode env.statusOut = false)
    (htags : env.tagsCode = 0)
    (hall : (splitLines env.tagsOut).all (fun t => !(validTagB t)) = true) :
    mainRun errorOnDirty errorOnUnreachable env = ([], .ok "0.1.0") := by
  obtain ⟨r, hr⟩ := Option.isSome_iff_exists.mp hroot
  have hdirt : (errorOnDirty && isDirty env.statusCode env.statusOut) = false := by
    cases errorOnDirty
    · rfl
    · simp [hclean rfl]
  have hfilter : (splitLines env.tagsOut).filter validTagB = [] := by
    apply List.filter_eq_nil_iff.mpr
    intro t ht
    have h1 := List.all_eq_true.mp hall t ht
    simp only [Bool.not_eq_true'] at h1
    simp [h1]
  have hnone : getHighestVersionTag env.tagsCode env.tagsOut = none := by
    simp [getHighestVersionTag, highestVersionTagOf, htags, hfilter, sortBy]
  simp [mainRun, hr, hdirt, hnone]

/-- C5 witness: the theorem applied to a concrete environment with no
valid-semver tag. -/
theorem c5_no_previous_tag_yields_initial_version_witness :
    mainRun true true envNoTags = ([], .ok "0.1.0") :=
  c5_no_previous_tag_yields_initial_version true true envNoTags rfl
    (fun _ => rfl) rfl rfl

/-- C10.  `isDirty` (src/main.mjs lines 83-88) reports the tree dirty exactly
when the status command exited non-zero OR its trimmed output is non-empty;
consequently, with `error-on-dirty` enabled, a `main` run aborts with the
dirty-tree error whenever the status query merely fails, even with no
uncommitted changes in the output. -/
theorem c10_dirty_on_status_failure :
    (∀ (code : Int) (stdout : String),
      isDirty code stdout = true ↔ (code ≠ 0 ∨ jsTrim stdout ≠ "")) ∧
    (∀ (errorOnUnreachable : Bool) (env : Env),
      (getRoot env.rootCode env.rootOut).isSome = true → env.statusCode ≠ 0 →
        mainRun true errorOnUnreachable env = ([], .error .dirtyTree)) := by
  constructor
  · intro code stdout
    unfold isDirty
    constructor
    · intro h
      by_cases hc : code = 0
      · right
        intro hs
        simp [hc, hs] at h
      · exact Or.inl hc
    · intro h
      rcases h with hc | hs
      · have hb : (code == 0) = false := by simpa using hc
        simp [hb]
      · have hb : (jsTrim stdout == "") = false := by simpa using hs
        simp [hb]
  · intro errorOnUnreachable env hroot hsc
    obtain ⟨r, hr⟩ := Option.isSome_iff_exists.mp hroot
    have hdirty : isDirty env.statusCode env.statusOut = true := by
      unfold isDirty
      have hb : (env.statusCode == 0) = false := by simpa using hsc
      simp [hb]
    simp [mainRun, hr, hdirty]

/-- C10 witness: the theorem applied to a failing status query. -/
theorem c10_dirty_on_status_failure_witness :
    (isDirty 1 "" = true ↔ ((1 : Int) ≠ 0 ∨ jsTrim "" ≠ "")) ∧
    mainRun true true envStatusFails = ([], .error .dirtyTree) :=
  ⟨c10_dirty_on_status_failure.1 1 "",
    c10_dirty_on_status_failure.2 true envStatusFails rfl (by decide)⟩

/-- C6.  Counterexample to the claim as stated: in the src/unnamed/part_000
revision, when the previous tag and the current branch resolve to the same
commit the driver returns `semver.valid(previousVersion)` — the normalized
TAG NAME — not the previous artifact's manifest-declared version.  In this
environment the two references resolve to the same commit, the previous
artifact's manifest declares version `9.9.9`, and the reported output is the
tag's version `1.2.3`. -/
theorem c6_counterexample :
    mainRunHashed true true envSameCommit = ([], .ok "1.2.3") ∧
    envSameCommit.pipeline = .ok ⟨some "9.9.9", some "9.9.9", true, true⟩ ∧
    getRefCommit envSameCommit.prevHashCode envSameCommit.prevHashOut =
      getRefCommit envSameCommit.currHashCode envSameCommit.currHashOut ∧
    ("1.2.3" : String) ≠ "9.9.9" :=
  ⟨rfl, rfl, rfl, by decide⟩

/-- C6 amended.  Whenever the previous tag and the current branch resolve to
the identical commit (and the run gets past the earlier checks), the
src/unnamed/part_000 driver short-circuits — empty effect list, so no
packaging, no oracle, no comparison — and reports the previous TAG NAME
normalized as a semantic version (which coincides with the previous
artifact's declared version only when the manifest version matches the
tag). -/
theorem c6_amended_same_commit_reports_tag
    (errorOnDirty errorOnUnreachable : Bool) (env : HashedEnv) (p : String) (v : SemVer)
    (hroot : (getRoot env.rootCode env.rootOut).isSome = true)
    (hclean : errorOnDirty = true → isDirty env.statusCode env.statusOut = false)
    (htag : getHighestVersionTag env.tagsCode env.tagsOut = some p)
    (hv : semverValid p = some v)
    (hph : (getRefCommit env.prevHashCode env.prevHashOut).isSome = true)
    (hbr : (getCurrentBranch env.branchCode env.branchOut).isSome = true)
    (hsame : getRefCommit env.prevHashCode env.prevHashOut =
      getRefCommit env.currHashCode env.currHashOut) :
    mainRunHashed errorOnDirty errorOnUnreachable env = ([], .ok (formatSemVer v)) := by
  obtain ⟨r, hr⟩ := Option.isSome_iff_exists.mp hroot
  obtain ⟨h1, hp1⟩ := Option.isSome_iff_exists.mp hph
  obtain ⟨b1, hb1⟩ := Option.isSome_iff_exists.mp hbr
  have hdirt : (errorOnDirty && isDirty env.statusCode env.statusOut) = false := by
    cases errorOnDirty
    · rfl
    · simp [hclean rfl]
  have hc1 : getRefCommit env.currHashCode env.currHashOut = some h1 := by
    rw [← hsame]
    exact hp1
  simp [mainRunHashed, hr, hdirt, htag, hp1, hb1, hc1, hv]

/-- C6 amended witness: the theorem applied to the same-commit environment. -/
theorem c6_amended_same_commit_reports_tag_witness :
    mainRunHashed true true envSameCommit = ([], .ok (formatSemVer ⟨1, 2, 3⟩)) :=
  c6_amended_same_commit_reports_tag true true envSameCommit "1.2.3" ⟨1, 2, 3⟩
    rfl (fun _ => rfl) rfl rfl rfl rfl rfl

end LiskovSemver
